import Mathlib

/-!
# generator — formal model and verification

A shallow embedding of the template-scaffolding generator
(`src/lib.rs`, `src/main.rs`, `src/git.rs`) together with proofs about its
rule resolution, variable binding and generation behaviour.

External collaborators are modelled semantically: a parsed YAML document is
a `Value`; a compiled regular expression (`regex::Regex`) is its matching
function; the `tera` substitution engine, and the UTF-8 decoder/encoder,
are opaque function parameters; standard input is a stream of lines.
Filesystem paths relative to the template root are lists of components,
rendered with `/` separators (the code runs `Path::strip_prefix` followed
by `to_str`; the embedding assumes valid UTF-8 path components).
-/

/-- A parsed YAML document, modelling `serde_yaml::Value`.  Mappings keep
their key/value pairs in document order. -/
inductive Value where
  | null : Value
  | bool (b : Bool) : Value
  | num (n : Int) : Value
  | str (s : String) : Value
  | seq (l : List Value) : Value
  | map (m : List (Value × Value)) : Value

/-- Does a mapping entry have the string `k` as its key?  Models comparing a
key against `Value::String(k)`. -/
def keyIs (k : String) : Value × Value → Bool
  | (.str s, _) => s == k
  | _ => false

/-- Models `serde_yaml::Value::get` indexed by a string key: on a mapping,
the value of the first entry whose key is the string `k`; on anything else,
`None`. -/
def Value.get : Value → String → Option Value
  | .map m, k => (m.find? (keyIs k)).map (·.2)
  | _, _ => none

/-- Models `Value::as_str`. -/
def Value.asStr : Value → Option String
  | .str s => some s
  | _ => none

/-- Models `Value::as_bool`. -/
def Value.asBool : Value → Option Bool
  | .bool b => some b
  | _ => none

/-- Models `Value::as_sequence`. -/
def Value.asSequence : Value → Option (List Value)
  | .seq l => some l
  | _ => none

/-- Models `Value::is_mapping`. -/
def Value.isMapping : Value → Bool
  | .map _ => true
  | _ => false

/-- A compiled regular expression, modelled semantically by its
`Regex::is_match` function. -/
abbrev Matcher := String → Bool

/-- Semantics of `Regex::new("^template.yml$").is_match`: `^`/`$` anchor at
the start/end of the haystack and the unescaped `.` matches any single
character except a newline, so the haystack must be `template`, then any
non-newline character, then `yml`. -/
def reTemplateYml : Matcher := fun s =>
  match s.data with
  | [c0, c1, c2, c3, c4, c5, c6, c7, c8, c9, c10, c11] =>
    c0 == 't' && c1 == 'e' && c2 == 'm' && c3 == 'p' && c4 == 'l' && c5 == 'a' &&
    c6 == 't' && c7 == 'e' && c8 != '\n' && c9 == 'y' && c10 == 'm' && c11 == 'l'
  | _ => false

/-- Semantics of `Regex::new("^.git/").is_match`: the haystack starts with
any non-newline character followed by `git/`. -/
def reDotGitSlash : Matcher := fun s =>
  match s.data with
  | c0 :: c1 :: c2 :: c3 :: c4 :: _ =>
    c0 != '\n' && c1 == 'g' && c2 == 'i' && c3 == 't' && c4 == '/'
  | _ => false

/-- Semantics of `Regex::new("^.git$").is_match`: the haystack is any
non-newline character followed by `git`. -/
def reDotGitExact : Matcher := fun s =>
  match s.data with
  | [c0, c1, c2, c3] => c0 != '\n' && c1 == 'g' && c2 == 'i' && c3 == 't'
  | _ => false

/-- Semantics of `Regex::new(".*").is_match`: `.*` matches the empty
substring at position 0 of any haystack, so `is_match` is always true. -/
def reCatchAll : Matcher := fun _ => true

/-- One classification rule (`struct FileDef` in `src/lib.rs`). -/
structure FileDef where
  sources : List Matcher
  template : Bool
  «include» : Bool
  rename : Option String

/-- One declared variable (`struct VariableDef`). -/
structure VariableDef where
  name : String
  default : Option String

/-- A parsed template definition (`struct TemplateDef`). -/
structure TemplateDef where
  files : List FileDef
  «variables» : List VariableDef

/-- Does a rule match a path string, i.e. does any of its source patterns
match it?  This is the predicate `find_for_str` tests. -/
def ruleMatches (d : FileDef) (s : String) : Bool :=
  d.sources.any (fun o => o s)

/-- Models `TemplateDef::find_for_str` (src/lib.rs lines 25–32): the first
rule in `files` one of whose source patterns matches `s`. -/
def TemplateDef.find_for_str (t : TemplateDef) (s : String) : Option FileDef :=
  t.files.find? (fun d => d.sources.any (fun o => o s))

/-- An `anyhow`-level failure.  `msg` models a `Result::Err` carrying a
context message; `panicked` models a Rust panic (e.g. `Option::unwrap` on
`None`), which is not an error result. -/
inductive Failure where
  | msg (s : String)
  | panicked

/-- Sequential fallible map, modelling `Iterator::collect::<Result<_>>`:
elements are processed in order and the first failure wins. -/
def mapME (f : α → Except Failure β) : List α → Except Failure (List β)
  | [] => .ok []
  | a :: l =>
    match f a with
    | .error e => .error e
    | .ok b =>
      match mapME f l with
      | .error e => .error e
      | .ok bs => .ok (b :: bs)

/-- First fallback rule (src/lib.rs lines 50–55): the configuration file
pattern `^template.yml$`, excluded from output. -/
def templateYmlRule : FileDef :=
  { sources := [reTemplateYml], template := true, «include» := false, rename := none }

/-- Second fallback rule (src/lib.rs lines 56–61): the version-control
metadata patterns `^.git/` and `^.git$`, excluded from output. -/
def gitMetaRule : FileDef :=
  { sources := [reDotGitSlash, reDotGitExact], «include» := false, template := true, rename := none }

/-- Third fallback rule (src/lib.rs lines 62–67): the catch-all pattern
`.*`, included and templated. -/
def catchAllRule : FileDef :=
  { sources := [reCatchAll], «include» := true, template := true, rename := none }

/-- The `default_files_entry` vector of `parse_definition` (src/lib.rs
lines 49–68), appended after the explicit rules. -/
def default_files_entry : List FileDef :=
  [templateYmlRule, gitMetaRule, catchAllRule]

/-- Parse one element of the `files` sequence (src/lib.rs lines 81–126).
`newRegex` models `Regex::new`, returning `none` when the pattern does not
compile. -/
def parseFileDef (newRegex : String → Option Matcher) : Value → Except Failure FileDef
  | .str s =>
    match newRegex s with
    | some r => .ok { sources := [r], template := true, «include» := true, rename := none }
    | none => .error (.msg "Expected valid regex")
  | .map m =>
    match
      (match Value.get (.map m) "sources" with
       | some (.str s) =>
         match newRegex s with
         | some r => Except.ok [r]
         | none => Except.error (Failure.msg "Expected valid regex")
       | some (.seq s) =>
         mapME (fun (o : Value) =>
           match o.asStr with
           | none => Except.error (Failure.msg "Expected a sequence of strings")
           | some str =>
             match newRegex str with
             | none => Except.error (Failure.msg "Expected a valid regex")
             | some r => Except.ok r) s
       | _ => Except.error (Failure.msg "Unexpected value, expected string or sequence of strings"))
    with
    | .error e => .error e
    | .ok sources =>
      match
        (match Value.get (.map m) "template" with
         | none => Except.ok true
         | some o =>
           match o.asBool with
           | some b => Except.ok b
           | none => Except.error (Failure.msg "Expected `template` to be a boolean"))
      with
      | .error e => .error e
      | .ok template =>
        match
          (match Value.get (.map m) "include" with
           | none => Except.ok true
           | some o =>
             match o.asBool with
             | some b => Except.ok b
             | none => Except.error (Failure.msg "Expected `include` to be a boolean"))
        with
        | .error e => .error e
        | .ok incl =>
          match
            (match Value.get (.map m) "rename" with
             | none => Except.ok none
             | some o =>
               match o.asStr with
               | some s => Except.ok (some s)
               | none => Except.error (Failure.msg "Expected `rename` to be a string"))
          with
          | .error e => .error e
          | .ok rename => .ok { sources, template, «include» := incl, rename }
  | _ => .error (.msg "Unexpected value, expected string or mapping")

/-- Parse one element of the `variables` sequence (src/lib.rs lines
138–158).  Note line 152: a `default` value that is present but not a
string is hit with `Option::unwrap`, i.e. a panic rather than an error. -/
def parseVariableDef : Value → Except Failure VariableDef
  | .str s => .ok { name := s, default := none }
  | .map m =>
    match
      (match Value.get (.map m) "name" with
       | none => Except.error (Failure.msg "Expected name for variable")
       | some v =>
         match v.asStr with
         | some s => Except.ok s
         | none => Except.error (Failure.msg "Expected variable name to be string"))
    with
    | .error e => .error e
    | .ok name =>
      match
        (match Value.get (.map m) "default" with
         | none => Except.ok none
         | some v =>
           match v.asStr with
           | some s => Except.ok (some s)
           | none => Except.error Failure.panicked)
      with
      | .error e => .error e
      | .ok dflt => .ok { name := name, default := dflt }
  | _ => .error (.msg "Unexpected value, expected string or mapping")

/-- The `files` section of `parse_definition` (src/lib.rs lines 74–130):
absent key gives no explicit rules; a non-sequence is an error; otherwise
each element is parsed in order. -/
def parseFilesSection (newRegex : String → Option Matcher) (value : Value) :
    Except Failure (List FileDef) :=
  match value.get "files" with
  | none => .ok []
  | some o =>
    match o.asSequence with
    | none => .error (.msg "Expected `files` to be a sequence")
    | some fs => mapME (parseFileDef newRegex) fs

/-- The `variables` section of `parse_definition` (src/lib.rs lines
132–159): an absent key defaults to the empty sequence. -/
def parseVariablesSection (value : Value) : Except Failure (List VariableDef) :=
  match ((value.get "variables").getD (.seq [])).asSequence with
  | none => .error (.msg "Expected `variables` to be a sequence")
  | some vs => mapME parseVariableDef vs

/-- Models `parse_definition` (src/lib.rs lines 48–162) applied to an
already-deserialized YAML document: require a top-level mapping, parse the
explicit rules, parse the variables, and append the three fallback rules
after the explicit ones. -/
def parse_definition (newRegex : String → Option Matcher) (value : Value) :
    Except Failure TemplateDef :=
  if !value.isMapping then
    .error (.msg "Expected template definition to be mapping at top level")
  else
    match parseFilesSection newRegex value with
    | .error e => .error e
    | .ok explicitFiles =>
      match parseVariablesSection value with
      | .error e => .error e
      | .ok vars => .ok { files := explicitFiles ++ default_files_entry, «variables» := vars }

/-- A `tera::Context`, modelled as an association list from variable names
to values; `insert` replaces any existing binding for the key, as the map
underlying `tera::Context` does. -/
abbrev Ctx := List (String × Value)

/-- Models `tera::Context::get`-style lookup: the binding of key `k`. -/
def Ctx.get (c : Ctx) (k : String) : Option Value :=
  (c.find? (fun p => p.1 == k)).map (·.2)

/-- Models `tera::Context::insert`: bind `k` to `v`, replacing any previous
binding of `k`. -/
def Ctx.insert (c : Ctx) (k : String) (v : Value) : Ctx :=
  (k, v) :: c.filter (fun p => p.1 != k)

/-- Models `tera::Context::contains_key`. -/
def Ctx.containsKey (c : Ctx) (k : String) : Bool :=
  (c.get k).isSome

/-- The keys currently bound in a context. -/
def Ctx.keyList (c : Ctx) : List String :=
  c.map Prod.fst

/-- One run of `prompt` (src/lib.rs lines 164–171): the printed prompt
names the variable and exactly one line is read from standard input. -/
structure PromptEvent where
  name : String
  line : String

/-- The variable loop of `generate` (src/lib.rs lines 186–195) together
with `prompt` (lines 164–171).  `stdin` is the stream of input lines and
`i` the index of the next unread line; the result is the final context,
the next unread line index, and the prompts issued in order.  Each
declared variable is processed in declaration order: skipped when its key
is already bound, bound to its default when it has one, and otherwise
prompted for, reading exactly one line. -/
def resolveVars (stdin : Nat → String) : List VariableDef → Ctx → Nat → Ctx × Nat × List PromptEvent
  | [], ctx, i => (ctx, i, [])
  | v :: vs, ctx, i =>
    if ctx.containsKey v.name then
      resolveVars stdin vs ctx i
    else
      match v.default with
      | some d => resolveVars stdin vs (ctx.insert v.name (.str d)) i
      | none =>
        let line := stdin i
        let r := resolveVars stdin vs (ctx.insert v.name (.str line)) (i + 1)
        (r.1, r.2.1, ⟨v.name, line⟩ :: r.2.2)

/-- Lines 183–185 of `generate`: when the destination's final path
component exists and is valid UTF-8 (`destName = some s`), insert
`basename = s` into the context — unconditionally. -/
def insertBasename (ctx : Ctx) (destName : Option String) : Ctx :=
  match destName with
  | some s => ctx.insert "basename" (.str s)
  | none => ctx

/-- A template-relative path joined with `/` separators, as produced by
`strip_prefix` + `to_str` on Unix. -/
def pathStr (comps : List String) : String :=
  String.intercalate "/" comps

/-- Lines 219–224 of `generate`: the per-entry rendering context is a copy
of the base context extended with `file` bound to the entry's
template-relative path; the `insert` comes after the `extend`, so it
replaces any existing `file` binding. -/
def perEntryCtx (ctx : Ctx) (rel : List String) : Ctx :=
  ctx.insert "file" (.str (pathStr rel))

/-- The template-side directory tree.  A `file` holds its raw bytes. -/
inductive FSTree where
  | file (contents : List Nat) : FSTree
  | dir (entries : List (String × FSTree)) : FSTree

/-- The predicate passed to `filter_entry` (src/lib.rs lines 199–207):
resolve the entry's relative path and keep the entry when its rule's
`include` flag is true (`unwrap_or_default` gives `false` when no rule
matches). -/
def includedB (d : TemplateDef) (rel : List String) : Bool :=
  ((d.find_for_str (pathStr rel)).map FileDef.include).getD false

mutual

/-- Models `WalkDir::new(template).min_depth(1)` with the `filter_entry`
predicate of src/lib.rs lines 196–207: a pre-order walk that yields each
surviving entry's relative path (with its subtree), never yields the root
itself, and does not descend into a directory whose entry fails the
predicate. -/
def walkTree (d : TemplateDef) (pfx : List String) : FSTree → List (List String × FSTree)
  | .file _ => []
  | .dir es => walkEntries d pfx es
termination_by t => sizeOf t

/-- The children of one directory, walked in order. -/
def walkEntries (d : TemplateDef) (pfx : List String) :
    List (String × FSTree) → List (List String × FSTree)
  | [] => []
  | (name, sub) :: rest =>
    (let rel := pfx ++ [name]
     if includedB d rel then (rel, sub) :: walkTree d rel sub else []) ++
    walkEntries d pfx rest
termination_by l => sizeOf l

end

/-- The state of the destination directory tree: the directories created
so far and the files written so far (path, bytes). -/
structure DestFs where
  dirs : List String
  files : List (String × List Nat)
deriving DecidableEq

/-- Models `std::fs::File::create` followed by `write_all` (src/lib.rs
lines 236–252): `File::create` creates the file if it does not exist and
TRUNCATES it if it does — it does not fail on an existing file — so the
net effect is that `p` holds exactly `bytes`, replacing any previous
contents. -/
def DestFs.writeFile (st : DestFs) (p : String) (bytes : List Nat) : DestFs :=
  { st with files := (p, bytes) :: st.files.filter (fun q => q.1 != p) }

/-- Models `std::fs::create_dir_all` (src/lib.rs lines 231–234):
idempotently record the directory. -/
def DestFs.createDirAll (st : DestFs) (p : String) : DestFs :=
  { st with dirs := if st.dirs.contains p then st.dirs else p :: st.dirs }

/-- The body of the per-entry loop of `generate` (src/lib.rs lines
215–253) for one walked entry: resolve the rule, build the per-entry
context, render the rename template if any to obtain the destination
path, then create the directory or write the (rendered or verbatim) file.
`tera` models `Tera::one_off` with the given context; `decodeUtf8` models
`read_to_string`'s UTF-8 decoding of the raw bytes; `encodeUtf8` models
`String::into_bytes`. -/
def processEntry (tera : String → Ctx → Except Failure String)
    (decodeUtf8 : List Nat → Option String) (encodeUtf8 : String → List Nat)
    (d : TemplateDef) (baseCtx : Ctx) (st : DestFs)
    (rel : List String) (node : FSTree) : Except Failure DestFs :=
  match d.find_for_str (pathStr rel) with
  | none => .error (.msg "Could not find a spec for file")
  | some f =>
    let ctx := perEntryCtx baseCtx rel
    match
      (match f.rename with
       | some r => tera r ctx
       | none => Except.ok (pathStr rel))
    with
    | .error e => .error e
    | .ok newPath =>
      match node with
      | .dir _ => .ok (st.createDirAll newPath)
      | .file bytes =>
        if f.template then
          match decodeUtf8 bytes with
          | none => .error (.msg "Invalid UTF-8 in file")
          | some text =>
            match tera text ctx with
            | .error e => .error e
            | .ok rendered => .ok (st.writeFile newPath (encodeUtf8 rendered))
        else
          .ok (st.writeFile newPath bytes)

/-- Run the per-entry loop over the walked entries in order, stopping at
the first failure (`?` in the loop body propagates the error). -/
def runEntries (tera : String → Ctx → Except Failure String)
    (decodeUtf8 : List Nat → Option String) (encodeUtf8 : String → List Nat)
    (d : TemplateDef) (baseCtx : Ctx) :
    DestFs → List (List String × FSTree) → Except Failure DestFs
  | st, [] => .ok st
  | st, (rel, node) :: rest =>
    match processEntry tera decodeUtf8 encodeUtf8 d baseCtx st rel node with
    | .error e => .error e
    | .ok st' => runEntries tera decodeUtf8 encodeUtf8 d baseCtx st' rest

/-- Models `tera::Context::from_serialize` on the parsed defaults file
(src/lib.rs lines 179–182): a top-level mapping with string keys becomes
the initial context; anything else is an error. -/
def contextFromSerialize : Value → Except Failure Ctx
  | .map m =>
    mapME (fun (p : Value × Value) =>
      match p.1 with
      | .str k => Except.ok (k, p.2)
      | _ => Except.error (Failure.msg "While parsing default variables")) m
  | _ => .error (.msg "While parsing default variables")

/-- Models `generate` (src/lib.rs lines 172–256) over the embedded
collaborators: parse the template definition, build the context from the
defaults file, insert `basename`, resolve the declared variables, then
walk the template tree and process each surviving entry.  Returns the
destination tree together with the prompts issued. -/
def generate (tera : String → Ctx → Except Failure String)
    (decodeUtf8 : List Nat → Option String) (encodeUtf8 : String → List Nat)
    (newRegex : String → Option Matcher) (stdin : Nat → String)
    (cfg : Value) (defaults : Value) (destName : Option String)
    (tree : FSTree) : Except Failure (DestFs × List PromptEvent) :=
  match parse_definition newRegex cfg with
  | .error e => .error e
  | .ok d =>
    match contextFromSerialize defaults with
    | .error e => .error e
    | .ok ctx0 =>
      let ctx1 := insertBasename ctx0 destName
      let r := resolveVars stdin d.«variables» ctx1 0
      match runEntries tera decodeUtf8 encodeUtf8 d r.1 ⟨[], []⟩ (walkTree d [] tree) with
      | .error e => .error e
      | .ok st => .ok (st, r.2.2)

/-- The prompt sequence as §4.2 of the spec describes it, phrased over the
set of already-known variable names only (spec-side reference definition,
compared against the imperative loop `resolveVars`): for each declared
variable in order, skip it when its name is known, record it as known when
it has a default, and otherwise prompt for it, reading one line. -/
def specPrompts (stdin : Nat → String) : List VariableDef → List String → Nat → List PromptEvent
  | [], _, _ => []
  | v :: vs, known, i =>
    if known.contains v.name then specPrompts stdin vs known i
    else
      match v.default with
      | some _ => specPrompts stdin vs (v.name :: known) i
      | none => ⟨v.name, stdin i⟩ :: specPrompts stdin vs (v.name :: known) (i + 1)

/-- A concrete renderer instance: renders every template string to itself. -/
def teraId : String → Ctx → Except Failure String := fun t _ => .ok t

/-- A concrete UTF-8 decoder instance that rejects every byte string. -/
def decodeNone : List Nat → Option String := fun _ => none

/-- A concrete UTF-8 encoder instance. -/
def encodeNil : String → List Nat := fun _ => []

/-- A concrete `Regex::new` instance on which every pattern fails to
compile (never consulted by the inputs it is used with). -/
def noRegex : String → Option Matcher := fun _ => none

/-- A configuration document with neither a `files` nor a `variables`
key. -/
def emptyCfg : Value := .map []

/-- The template definition parsed from `emptyCfg`: only the three
fallback rules. -/
def defOnlyFallbacks : TemplateDef := { files := default_files_entry, «variables» := [] }

/-- A matcher for exactly the relative path `sub`. -/
def subMatcher : Matcher := fun s => s == "sub"

/-- An explicit rule excluding the directory `sub`. -/
def excludeSubRule : FileDef :=
  { sources := [subMatcher], template := true, «include» := false, rename := none }

/-- A template definition whose explicit rule excludes `sub`, followed by
the fallback rules (so every descendant of `sub` matches the include=true
catch-all individually). -/
def defExcludeSub : TemplateDef :=
  { files := excludeSubRule :: default_files_entry, «variables» := [] }

/-- A template tree with an excluded directory `sub` containing
`inner.txt`, plus a top-level `a.txt`. -/
def treeWithSub : FSTree :=
  .dir [("sub", .dir [("inner.txt", .file [1])]), ("a.txt", .file [2])]

/-- A raw-copy rule whose rename template maps every entry to the single
destination path `collide.txt`. -/
def renameCollideRule : FileDef :=
  { sources := [reCatchAll], template := false, «include» := true, rename := some "collide.txt" }

/-- A template definition consisting of `renameCollideRule` alone. -/
def defRenameCollide : TemplateDef := { files := [renameCollideRule], «variables» := [] }

/-- A raw-copy rule (template=false) with no rename. -/
def rawCopyRule : FileDef :=
  { sources := [reCatchAll], template := false, «include» := true, rename := none }

/-- A template definition consisting of `rawCopyRule` alone. -/
def defRawCopy : TemplateDef := { files := [rawCopyRule], «variables» := [] }

theorem Ctx.get_insert_self (c : Ctx) (k : String) (v : Value) :
    (c.insert k v).get k = some v := by
  simp [Ctx.insert, Ctx.get, List.find?_cons]

theorem Ctx.find?_filter_ne (c : Ctx) (k k' : String) (h : k' ≠ k) :
    (c.filter (fun p => p.1 != k)).find? (fun p => p.1 == k')
      = c.find? (fun p => p.1 == k') := by
  have hkk : (k == k') = false := by
    simp only [beq_eq_false_iff_ne, ne_eq]
    exact fun e => h e.symm
  induction c with
  | nil => rfl
  | cons a c ih =>
    by_cases hk : a.1 = k
    · simp [List.filter_cons, hk, List.find?_cons, hkk, ih]
    · by_cases h2 : a.1 = k'
      · simp [List.filter_cons, hk, List.find?_cons, h2, h]
      · simp [List.filter_cons, hk, List.find?_cons, h2, ih]

theorem Ctx.get_insert_ne (c : Ctx) (k k' : String) (v : Value) (h : k' ≠ k) :
    (c.insert k v).get k' = c.get k' := by
  have h1 : (k == k') = false := by simp; exact fun e => h e.symm
  simp [Ctx.insert, Ctx.get, List.find?_cons, h1, Ctx.find?_filter_ne c k k' h]

theorem Ctx.containsKey_eq_keyList_contains (c : Ctx) (k : String) :
    c.containsKey k = c.keyList.contains k := by
  induction c with
  | nil => rfl
  | cons a c ih =>
    by_cases hk : a.1 = k
    · simp [Ctx.containsKey, Ctx.get, Ctx.keyList, List.find?_cons, hk]
    · simp only [Ctx.containsKey, Ctx.get, Ctx.keyList] at *
      simp [List.find?_cons, hk, ih, Ne.symm hk]

theorem Ctx.keys_filter_ne_mem (c : Ctx) (k n : String) (h : n ≠ k) :
    (n ∈ (c.filter (fun p => p.1 != k)).map Prod.fst) ↔ n ∈ c.map Prod.fst := by
  simp only [List.mem_map, List.mem_filter]
  constructor
  · rintro ⟨p, ⟨hp, _⟩, rfl⟩
    exact ⟨p, hp, rfl⟩
  · rintro ⟨p, hp, rfl⟩
    exact ⟨p, ⟨hp, by simpa using h⟩, rfl⟩

theorem Ctx.keyList_insert_contains (c : Ctx) (k n : String) (v : Value) :
    ((c.insert k v).keyList).contains n = ((k :: c.keyList)).contains n := by
  simp only [Ctx.insert, Ctx.keyList, List.map_cons, List.contains_cons]
  by_cases hn : n = k
  · simp [hn]
  · congr 1
    simp [Ctx.keys_filter_ne_mem c k n hn]

theorem find_eq_some_split {α : Type} {p : α → Bool} :
    ∀ {l : List α} {r : α}, l.find? p = some r →
      p r = true ∧ ∃ pre post, l = pre ++ r :: post ∧ ∀ x ∈ pre, p x = false := by
  intro l
  induction l with
  | nil => intro r h; simp [List.find?] at h
  | cons a l ih =>
    intro r h
    by_cases ha : p a
    · rw [List.find?_cons_of_pos _ ha] at h
      cases h
      exact ⟨ha, [], l, rfl, by simp⟩
    · rw [List.find?_cons_of_neg _ (by simpa using ha)] at h
      obtain ⟨hr, pre, post, hsplit, hpre⟩ := ih h
      refine ⟨hr, a :: pre, post, by rw [hsplit]; rfl, ?_⟩
      intro x hx
      rcases List.mem_cons.mp hx with hx | hx
      · subst hx; simpa using ha
      · exact hpre x hx

theorem mapME_ok_spec {α β : Type} {f : α → Except Failure β} :
    ∀ {l : List α} {ys : List β}, mapME f l = .ok ys →
      ys.length = l.length ∧
      ∀ i (h1 : i < l.length) (h2 : i < ys.length), f l[i] = .ok ys[i] := by
  intro l
  induction l with
  | nil =>
    intro ys h
    simp only [mapME] at h
    cases h
    exact ⟨rfl, by intro i h1 _; exact absurd h1 (by simp)⟩
  | cons a l ih =>
    intro ys h
    simp only [mapME] at h
    split at h
    · exact absurd h (by simp)
    · rename_i b hb
      split at h
      · exact absurd h (by simp)
      · rename_i bs hbs
        cases h
        obtain ⟨hlen, helem⟩ := ih hbs
        refine ⟨by simp [hlen], ?_⟩
        intro i h1 h2
        cases i with
        | zero => simpa using hb
        | succ n =>
          simpa using helem n (by simpa using h1) (by simpa using h2)

theorem resolveVars_preserves (stdin : Nat → String) (vs : List VariableDef) :
    ∀ (ctx : Ctx) (i : Nat) (k : String) (v : Value), ctx.get k = some v →
      ((resolveVars stdin vs ctx i).1).get k = some v := by
  induction vs with
  | nil => intro ctx i k v h; simpa [resolveVars] using h
  | cons w vs ih =>
    intro ctx i k v h
    by_cases hc : ctx.containsKey w.name
    · simpa [resolveVars, hc] using ih ctx i k v h
    · have hkne : k ≠ w.name := by
        intro e
        rw [← e] at hc
        simp [Ctx.containsKey, h] at hc
      cases hd : w.default with
      | some dflt =>
        simpa [resolveVars, hc, hd] using
          ih _ i k v (by rw [Ctx.get_insert_ne _ _ _ _ hkne]; exact h)
      | none =>
        simpa [resolveVars, hc, hd] using
          ih _ (i + 1) k v (by rw [Ctx.get_insert_ne _ _ _ _ hkne]; exact h)

theorem parse_ok_shape {newRegex : String → Option Matcher} {v : Value} {d : TemplateDef}
    (h : parse_definition newRegex v = .ok d) :
    ∃ ex vars, parseFilesSection newRegex v = .ok ex ∧
      parseVariablesSection v = .ok vars ∧
      d.files = ex ++ default_files_entry ∧ d.«variables» = vars := by
  unfold parse_definition at h
  split at h
  · exact absurd h (by simp)
  · split at h
    · exact absurd h (by simp)
    · rename_i ex hex
      split at h
      · exact absurd h (by simp)
      · rename_i vars hvars
        cases h
        exact ⟨ex, vars, hex, hvars, rfl, rfl⟩

theorem specPrompts_congr (stdin : Nat → String) :
    ∀ (vs : List VariableDef) (k1 k2 : List String),
      (∀ n, k1.contains n = k2.contains n) →
      ∀ i, specPrompts stdin vs k1 i = specPrompts stdin vs k2 i := by
  intro vs
  induction vs with
  | nil => intros; rfl
  | cons v vs ih =>
    intro k1 k2 hk i
    simp only [specPrompts]
    rw [hk v.name]
    have hk' : ∀ n, (v.name :: k1).contains n = (v.name :: k2).contains n := by
      intro n
      simp only [List.contains_cons]
      rw [hk n]
    by_cases h : k2.contains v.name = true
    · rw [if_pos h, if_pos h]
      exact ih k1 k2 hk i
    · rw [if_neg h, if_neg h]
      cases v.default with
      | some dflt => exact ih _ _ hk' i
      | none => rw [ih _ _ hk' (i + 1)]

theorem reTemplateYml_eq_true_iff (s : String) :
    reTemplateYml s = true ↔
      ∃ c : Char, c ≠ '\n' ∧
        s.data = ['t', 'e', 'm', 'p', 'l', 'a', 't', 'e', c, 'y', 'm', 'l'] := by
  constructor
  · intro h
    unfold reTemplateYml at h
    split at h
    · rename_i c0 c1 c2 c3 c4 c5 c6 c7 c8 c9 c10 c11 heq
      simp only [Bool.and_eq_true, beq_iff_eq, bne_iff_ne, ne_eq] at h
      obtain ⟨⟨⟨⟨⟨⟨⟨⟨⟨⟨⟨h0, h1⟩, h2⟩, h3⟩, h4⟩, h5⟩, h6⟩, h7⟩, h8⟩, h9⟩, h10⟩, h11⟩ := h
      subst h0 h1 h2 h3 h4 h5 h6 h7 h9 h10 h11
      exact ⟨c8, h8, heq⟩
    · simp at h
  · rintro ⟨c, hc, hdata⟩
    unfold reTemplateYml
    split
    · rename_i c0 c1 c2 c3 c4 c5 c6 c7 c8 c9 c10 c11 heq
      rw [hdata] at heq
      simp only [List.cons.injEq, and_true] at heq
      obtain ⟨h0, h1, h2, h3, h4, h5, h6, h7, h8, h9, h10, h11⟩ := heq
      subst h0 h1 h2 h3 h4 h5 h6 h7 h8 h9 h10 h11
      simp [hc]
    · rename_i hno
      exact absurd (hno 't' 'e' 'm' 'p' 'l' 'a' 't' 'e' c 'y' 'm' 'l' hdata) (by simp)

theorem reDotGitExact_eq_true_iff (s : String) :
    reDotGitExact s = true ↔
      ∃ c : Char, c ≠ '\n' ∧ s.data = [c, 'g', 'i', 't'] := by
  constructor
  · intro h
    unfold reDotGitExact at h
    split at h
    · rename_i c0 c1 c2 c3 heq
      simp only [Bool.and_eq_true, beq_iff_eq, bne_iff_ne, ne_eq] at h
      obtain ⟨⟨⟨h0, h1⟩, h2⟩, h3⟩ := h
      subst h1 h2 h3
      exact ⟨c0, h0, heq⟩
    · simp at h
  · rintro ⟨c, hc, hdata⟩
    unfold reDotGitExact
    split
    · rename_i c0 c1 c2 c3 heq
      rw [hdata] at heq
      simp only [List.cons.injEq, and_true] at heq
      obtain ⟨h0, h1, h2, h3⟩ := heq
      subst h0 h1 h2 h3
      simp [hc]
    · rename_i hno
      exact absurd (hno c 'g' 'i' 't' hdata) (by simp)

theorem reDotGitSlash_eq_true_iff (s : String) :
    reDotGitSlash s = true ↔
      ∃ (c : Char) (r : List Char), c ≠ '\n' ∧ s.data = c :: 'g' :: 'i' :: 't' :: '/' :: r := by
  constructor
  · intro h
    unfold reDotGitSlash at h
    split at h
    · rename_i c0 c1 c2 c3 c4 tl heq
      simp only [Bool.and_eq_true, beq_iff_eq, bne_iff_ne, ne_eq] at h
      obtain ⟨⟨⟨⟨h0, h1⟩, h2⟩, h3⟩, h4⟩ := h
      subst h1 h2 h3 h4
      exact ⟨c0, tl, h0, heq⟩
    · simp at h
  · rintro ⟨c, r, hc, hdata⟩
    unfold reDotGitSlash
    split
    · rename_i c0 c1 c2 c3 c4 tl heq
      rw [hdata] at heq
      simp only [List.cons.injEq] at heq
      obtain ⟨h0, h1, h2, h3, h4, h5⟩ := heq
      subst h0 h1 h2 h3 h4
      simp [hc]
    · rename_i hno
      exact absurd (hno c 'g' 'i' 't' '/' r hdata) (by simp)

theorem walk_mem_spec (d : TemplateDef) :
    ∀ (pfx : List String) (t : FSTree), ∀ e ∈ walkTree d pfx t,
      (∃ name rest, e.1 = pfx ++ name :: rest) ∧
      (∀ q : List String, pfx.length < q.length → q <+: e.1 → includedB d q = true) := by
  refine walkTree.induct d
    (fun pfx t => ∀ e ∈ walkTree d pfx t,
      (∃ name rest, e.1 = pfx ++ name :: rest) ∧
      (∀ q : List String, pfx.length < q.length → q <+: e.1 → includedB d q = true))
    (fun pfx es => ∀ e ∈ walkEntries d pfx es,
      (∃ name rest, e.1 = pfx ++ name :: rest) ∧
      (∀ q : List String, pfx.length < q.length → q <+: e.1 → includedB d q = true))
    ?_ ?_ ?_ ?_
  · intro pfx contents e he
    simp [walkTree] at he
  · intro pfx es ih e he
    rw [walkTree] at he
    exact ih e he
  · intro pfx e he
    simp [walkEntries] at he
  · intro pfx name sub rest ih1 ih2 e he
    rw [walkEntries] at he
    rcases List.mem_append.mp he with he | he
    · by_cases hinc : includedB d (pfx ++ [name]) = true
      · rw [if_pos hinc] at he
        rcases List.mem_cons.mp he with he | he
        · subst he
          refine ⟨⟨name, [], rfl⟩, ?_⟩
          intro q hlen hq
          have hql : q.length ≤ pfx.length + 1 := by
            have := hq.length_le
            simpa using this
          have : q = pfx ++ [name] := by
            refine hq.eq_of_length ?_
            simp
            omega
          rw [this]
          exact hinc
        · obtain ⟨⟨name2, rest2, hshape⟩, hincl⟩ := ih1 e he
          refine ⟨⟨name, name2 :: rest2, by rw [hshape]; simp⟩, ?_⟩
          intro q hlen hq
          by_cases hcase : (pfx ++ [name]).length < q.length
          · exact hincl q hcase hq
          · have hfull : (pfx ++ [name]) <+: e.1 := ⟨name2 :: rest2, hshape.symm⟩
            have hq2 : q <+: pfx ++ [name] :=
              List.prefix_of_prefix_length_le hq hfull (by simp at hcase ⊢; omega)
            have : q = pfx ++ [name] := by
              refine hq2.eq_of_length ?_
              simp at hcase ⊢
              omega
            rw [this]
            exact hinc
      · rw [if_neg hinc] at he
        simp at he
    · exact ih2 e he

/-- **C3**: for every parsed `TemplateDef` and every relative path string,
`find_for_str` returns the first rule in the combined ordered list whose
pattern set has at least one match; it is deterministic (a pure function),
and because the catch-all pattern matches every string it returns `some`
rule for every path — the no-rule case is unreachable. -/
theorem find_for_str_first_match_total (newRegex : String → Option Matcher)
    (v : Value) (d : TemplateDef) (h : parse_definition newRegex v = .ok d) (s : String) :
    ∃ r pre post, d.find_for_str s = some r ∧ ruleMatches r s = true ∧
      d.files = pre ++ r :: post ∧ ∀ r' ∈ pre, ruleMatches r' s = false := by
  obtain ⟨ex, vars, hex, hvars, hfiles, -⟩ := parse_ok_shape h
  have hmem : catchAllRule ∈ d.files := by
    rw [hfiles]
    simp [default_files_entry]
  have htot : (d.find_for_str s).isSome := by
    rw [TemplateDef.find_for_str, List.find?_isSome]
    exact ⟨catchAllRule, hmem, by simp [catchAllRule, reCatchAll]⟩
  obtain ⟨r, hr⟩ := Option.isSome_iff_exists.mp htot
  obtain ⟨hpr, pre, post, hsplit, hpre⟩ := find_eq_some_split hr
  exact ⟨r, pre, post, hr, hpr, hsplit, fun r' h' => hpre r' h'⟩

/-- Witness for C3: on the template definition parsed from the empty
configuration, resolution of the path `src/main.rs` is total and returns a
first match. -/
theorem find_for_str_first_match_total_witness :
    ∃ r pre post, defOnlyFallbacks.find_for_str "src/main.rs" = some r ∧
      ruleMatches r "src/main.rs" = true ∧
      defOnlyFallbacks.files = pre ++ r :: post ∧
      ∀ r' ∈ pre, ruleMatches r' "src/main.rs" = false :=
  find_for_str_first_match_total noRegex emptyCfg defOnlyFallbacks rfl "src/main.rs"

/-- **C4**: for every template whose rules resolve some directory's
relative path to include=false, generation emits no entry under that
directory (the walk never yields any path having it as a prefix) and
visits none of its descendants, even when a descendant's path would
individually match an include=true rule — pruning happens at the directory
node, not per-descendant. -/
theorem walk_prunes_excluded_dir (d : TemplateDef) (tree : FSTree) (q : List String)
    (hne : q ≠ []) (hq : includedB d q = false) :
    ∀ e ∈ walkTree d [] tree, ¬ (q <+: e.1) := by
  intro e he hpre
  have hlen : (0 : Nat) < q.length := List.length_pos.mpr hne
  have := (walk_mem_spec d [] tree e he).2 q (by simpa using hlen) hpre
  rw [hq] at this
  exact Bool.false_ne_true this

/-- Witness for C4: with an explicit rule excluding the directory `sub`
(followed by the fallback rules, so `sub/inner.txt` individually matches
the include=true catch-all), the surviving walked entry `a.txt` of the
concrete tree does not lie under `sub`. -/
theorem walk_prunes_excluded_dir_witness :
    includedB defExcludeSub ["sub"] = false ∧
    ¬ ((["sub"] : List String) <+: ["a.txt"]) :=
  ⟨rfl,
   walk_prunes_excluded_dir defExcludeSub treeWithSub ["sub"] (by decide) rfl
     (["a.txt"], FSTree.file [2])
     (by
       have h1 : includedB defExcludeSub ["sub"] = false := rfl
       have h2 : includedB defExcludeSub ["a.txt"] = true := rfl
       simp [walkTree, walkEntries, treeWithSub, h1, h2])⟩

/-- **C5**: for every successfully parsed configuration, the rule list is
the explicit rules in declaration order followed by exactly three fallback
rules in fixed order: the configuration-file rule (include=false,
template=true), the version-control metadata rule (include=false,
template=true), then the catch-all rule with pattern `.*` (include=true,
template=true), which matches every string. -/
theorem parse_definition_appends_fallbacks (newRegex : String → Option Matcher)
    (v : Value) (d : TemplateDef) (h : parse_definition newRegex v = .ok d) :
    ∃ ex, parseFilesSection newRegex v = .ok ex ∧
      d.files = ex ++ [templateYmlRule, gitMetaRule, catchAllRule] ∧
      (∀ l, v.get "files" = some (.seq l) →
        ex.length = l.length ∧
        ∀ i (h1 : i < l.length) (h2 : i < ex.length),
          parseFileDef newRegex l[i] = .ok ex[i]) ∧
      templateYmlRule.«include» = false ∧ templateYmlRule.template = true ∧
      gitMetaRule.«include» = false ∧ gitMetaRule.template = true ∧
      catchAllRule.«include» = true ∧ catchAllRule.template = true ∧
      catchAllRule.sources = [reCatchAll] ∧ ∀ s, reCatchAll s = true := by
  obtain ⟨ex, vars, hex, hvars, hfiles, -⟩ := parse_ok_shape h
  refine ⟨ex, hex, by simpa [default_files_entry] using hfiles, ?_,
    rfl, rfl, rfl, rfl, rfl, rfl, rfl, fun _ => rfl⟩
  intro l hl
  unfold parseFilesSection at hex
  rw [hl] at hex
  simp only [Value.asSequence] at hex
  exact mapME_ok_spec hex

/-- Witness for C5: the empty configuration parses to exactly the three
fallback rules in order. -/
theorem parse_definition_appends_fallbacks_witness :
    ∃ ex, parseFilesSection noRegex emptyCfg = .ok ex ∧
      defOnlyFallbacks.files = ex ++ [templateYmlRule, gitMetaRule, catchAllRule] ∧
      (∀ l, emptyCfg.get "files" = some (.seq l) →
        ex.length = l.length ∧
        ∀ i (h1 : i < l.length) (h2 : i < ex.length),
          parseFileDef noRegex l[i] = .ok ex[i]) ∧
      templateYmlRule.«include» = false ∧ templateYmlRule.template = true ∧
      gitMetaRule.«include» = false ∧ gitMetaRule.template = true ∧
      catchAllRule.«include» = true ∧ catchAllRule.template = true ∧
      catchAllRule.sources = [reCatchAll] ∧ ∀ s, reCatchAll s = true :=
  parse_definition_appends_fallbacks noRegex emptyCfg defOnlyFallbacks rfl

/-- **C1** (the claim is right, the code is wrong): the write path of
`generate` uses `std::fs::File::create`, which succeeds on an existing
destination file and truncates it, so a pre-existing destination (here
`collide.txt`, produced by a rename template mapping another entry there)
is silently overwritten and no `DestinationFileExists` error is raised —
the error context string `"Destination ... already exists!"` on lines
236–241 can never fire for an existing file.  Evaluated at the failing
input: a raw-copy entry `a.txt` renamed onto the occupied path
`collide.txt` succeeds and replaces the old contents `[104, 105]` with
`[33]`. -/
theorem processEntry_truncates_existing_destination :
    processEntry teraId decodeNone encodeNil defRenameCollide []
      ⟨[], [("collide.txt", [104, 105])]⟩ ["a.txt"] (.file [33])
      = .ok ⟨[], [("collide.txt", [33])]⟩ := rfl

/-- Counterexample to **C2** as stated: the defaults file already binds
`basename`, yet lines 183–185 of `generate` insert the destination's final
path component unconditionally, replacing the defaults-file binding — the
claimed presence check does not exist. -/
theorem insertBasename_overwrites_defaults_cex :
    Ctx.get [("basename", Value.str "fromDefaults")] "basename"
      = some (.str "fromDefaults") ∧
    Ctx.get (insertBasename [("basename", Value.str "fromDefaults")] (some "destdir")) "basename"
      = some (.str "destdir") ∧
    Value.str "destdir" ≠ Value.str "fromDefaults" := by
  refine ⟨rfl, rfl, ?_⟩
  intro h
  injection h with h2
  exact absurd h2 (by decide)

/-- **C2 (amended)**: `basename` is inserted unconditionally whenever the
destination's final path component exists and is valid UTF-8, replacing
any `basename` binding from the process-wide defaults file (and the
context is unchanged when the component is unavailable); first-writer-wins
holds only from the declared-variables phase onward: any key already bound
before that phase is never changed by it. -/
theorem basename_insert_and_first_writer_wins (ctx : Ctx) (name : String)
    (stdin : Nat → String) (vars : List VariableDef) (i : Nat) (k : String) (v : Value) :
    (insertBasename ctx (some name)).get "basename" = some (.str name) ∧
    insertBasename ctx none = ctx ∧
    (ctx.get k = some v → ((resolveVars stdin vars ctx i).1).get k = some v) :=
  ⟨Ctx.get_insert_self ctx "basename" (.str name), rfl,
    fun h => resolveVars_preserves stdin vars ctx i k v h⟩

/-- Witness for the amended C2: with `basename` bound by `insertBasename`,
a declared variable `basename` with a default does not change it. -/
theorem basename_insert_and_first_writer_wins_witness :
    ((insertBasename [("basename", Value.str "fromDefaults")] (some "destdir")).get "basename"
       = some (.str "destdir")) ∧
    ((resolveVars (fun _ => "typed") [⟨"basename", some "fromVariableDefault"⟩]
        (insertBasename [("basename", Value.str "fromDefaults")] (some "destdir")) 0).1).get
        "basename" = some (.str "destdir") :=
  ⟨(basename_insert_and_first_writer_wins [("basename", Value.str "fromDefaults")] "destdir"
      (fun _ => "typed") [⟨"basename", some "fromVariableDefault"⟩] 0 "basename"
      (.str "destdir")).1,
   (basename_insert_and_first_writer_wins
      (insertBasename [("basename", Value.str "fromDefaults")] (some "destdir")) "unused"
      (fun _ => "typed") [⟨"basename", some "fromVariableDefault"⟩] 0 "basename"
      (.str "destdir")).2.2 rfl⟩

/-- Counterexample to **C6** as stated: the unescaped `.` in the fallback
patterns makes the configuration-file rule match `templatezyml` (which is
not `template.yml`) and the version-control rule match `xgit` (which is
neither `.git` nor under `.git/`), so paths outside the configuration file
and the version-control metadata are matched — and thus excluded — by
these two fallback rules. -/
theorem fallbacks_match_beyond_literal_cex :
    ruleMatches templateYmlRule "templatezyml" = true ∧
    "templatezyml" ≠ "template.yml" ∧
    ruleMatches gitMetaRule "xgit" = true ∧
    "xgit" ≠ ".git" ∧
    List.isPrefixOf ".git/".data "xgit".data = false := by
  refine ⟨rfl, by decide, rfl, by decide, by decide⟩

/-- **C6 (amended)**: the first fallback rule matches a path iff it is
`template`, then any single non-newline character, then `yml` (the
unescaped regex `.`); the second matches iff the path is any non-newline
character followed by `git`, or starts with such followed by `/`.  In
particular `template.yml`, `.git` and `.git/...` do match, but nearby
paths such as `templatezyml` or `xgit` are matched (and excluded) too. -/
theorem fallback_rule_match_characterization (s : String) :
    (ruleMatches templateYmlRule s = true ↔
       ∃ c : Char, c ≠ '\n' ∧
         s.data = ['t', 'e', 'm', 'p', 'l', 'a', 't', 'e', c, 'y', 'm', 'l']) ∧
    (ruleMatches gitMetaRule s = true ↔
       ((∃ (c : Char) (r : List Char), c ≠ '\n' ∧ s.data = c :: 'g' :: 'i' :: 't' :: '/' :: r) ∨
        (∃ c : Char, c ≠ '\n' ∧ s.data = [c, 'g', 'i', 't']))) ∧
    ruleMatches templateYmlRule "template.yml" = true ∧
    ruleMatches gitMetaRule ".git" = true ∧
    ruleMatches gitMetaRule ".git/config" = true := by
  refine ⟨?_, ?_, rfl, rfl, rfl⟩
  · rw [show ruleMatches templateYmlRule s = reTemplateYml s by
      simp [ruleMatches, templateYmlRule]]
    exact reTemplateYml_eq_true_iff s
  · constructor
    · intro h
      simp only [ruleMatches, gitMetaRule, List.any_cons, List.any_nil, Bool.or_false,
        Bool.or_eq_true] at h
      rcases h with h | h
      · exact Or.inl ((reDotGitSlash_eq_true_iff s).mp h)
      · exact Or.inr ((reDotGitExact_eq_true_iff s).mp h)
    · intro h
      simp only [ruleMatches, gitMetaRule, List.any_cons, List.any_nil, Bool.or_false,
        Bool.or_eq_true]
      rcases h with h | h
      · exact Or.inl ((reDotGitSlash_eq_true_iff s).mpr h)
      · exact Or.inr ((reDotGitExact_eq_true_iff s).mpr h)

/-- **C8** (the claim is right, the code is wrong): a `variables` mapping
whose `default` is present but not a string does not yield an
`UnexpectedValue`-style error result — line 152 of `src/lib.rs` calls
`as_str().unwrap()` on it, which panics.  Evaluated at the failing input
`variables: [ { name: x, default: true } ]`. -/
theorem parse_variables_nonstring_default_panics :
    parse_definition noRegex
      (.map [(.str "variables",
        .seq [.map [(.str "name", .str "x"), (.str "default", .bool true)]])])
      = .error .panicked := rfl

/-- **C7**: each declared variable is processed in declaration order: one
already bound is skipped, one with a default gets the default, and each
remaining one triggers exactly one prompt naming it and reading exactly
one line of standard input, whose value is bound.  Formally: the prompt
trace of the imperative loop equals the spec-side `specPrompts` sequence
(one event per missing default-less variable, in order, with consecutive
input lines), the number of lines consumed equals the number of prompts,
and every prompted variable ends up bound to the line read for it. -/
theorem resolveVars_prompt_spec (stdin : Nat → String) (vs : List VariableDef) :
    ∀ (ctx : Ctx) (i : Nat),
      (resolveVars stdin vs ctx i).2.2 = specPrompts stdin vs ctx.keyList i ∧
      (resolveVars stdin vs ctx i).2.1 = i + ((resolveVars stdin vs ctx i).2.2).length ∧
      ∀ e ∈ (resolveVars stdin vs ctx i).2.2,
        ((resolveVars stdin vs ctx i).1).get e.name = some (.str e.line) := by
  induction vs with
  | nil =>
    intro ctx i
    simp [resolveVars, specPrompts]
  | cons v vs ih =>
    intro ctx i
    by_cases hc : ctx.containsKey v.name = true
    · have hk : ctx.keyList.contains v.name = true := by
        rw [← Ctx.containsKey_eq_keyList_contains]
        exact hc
      simp only [resolveVars, hc, if_true, specPrompts, hk]
      exact ih ctx i
    · have hk : ¬ ctx.keyList.contains v.name = true := by
        rw [← Ctx.containsKey_eq_keyList_contains]
        exact hc
      have hcong : ∀ (w : Value) (j : Nat),
          specPrompts stdin vs ((ctx.insert v.name w).keyList) j
            = specPrompts stdin vs (v.name :: ctx.keyList) j := by
        intro w j
        exact specPrompts_congr stdin vs _ _
          (fun n => Ctx.keyList_insert_contains ctx v.name n w) j
      cases hd : v.default with
      | some dflt =>
        obtain ⟨e1, e2, e3⟩ := ih (ctx.insert v.name (.str dflt)) i
        have hres : resolveVars stdin (v :: vs) ctx i
            = resolveVars stdin vs (ctx.insert v.name (.str dflt)) i := by
          simp only [resolveVars]
          rw [if_neg hc, hd]
        have hsp : specPrompts stdin (v :: vs) ctx.keyList i
            = specPrompts stdin vs (v.name :: ctx.keyList) i := by
          simp only [specPrompts]
          rw [if_neg hk, hd]
        rw [hres, hsp]
        exact ⟨e1.trans (hcong (.str dflt) i), e2, e3⟩
      | none =>
        obtain ⟨e1, e2, e3⟩ := ih (ctx.insert v.name (.str (stdin i))) (i + 1)
        have hres : resolveVars stdin (v :: vs) ctx i
            = ((resolveVars stdin vs (ctx.insert v.name (.str (stdin i))) (i + 1)).1,
               (resolveVars stdin vs (ctx.insert v.name (.str (stdin i))) (i + 1)).2.1,
               ⟨v.name, stdin i⟩ ::
                 (resolveVars stdin vs (ctx.insert v.name (.str (stdin i))) (i + 1)).2.2) := by
          simp only [resolveVars]
          rw [if_neg hc, hd]
        have hsp : specPrompts stdin (v :: vs) ctx.keyList i
            = ⟨v.name, stdin i⟩ :: specPrompts stdin vs (v.name :: ctx.keyList) (i + 1) := by
          simp only [specPrompts]
          rw [if_neg hk, hd]
        rw [hres, hsp]
        refine ⟨?_, ?_, ?_⟩
        · simp only [List.cons.injEq, true_and]
          exact e1.trans (hcong (.str (stdin i)) (i + 1))
        · simp only [List.length_cons]
          omega
        · intro e he
          rcases List.mem_cons.mp he with he | he
          · subst he
            exact resolveVars_preserves stdin vs _ (i + 1) v.name (.str (stdin i))
              (Ctx.get_insert_self ctx v.name (.str (stdin i)))
          · exact e3 e he

/-- Witness for C7: with `present` already bound, `defaulted` carrying a
default and `asked` missing, the loop's prompt trace, line consumption and
final bindings match the spec-side description. -/
theorem resolveVars_prompt_spec_witness :
    (resolveVars (fun _ => "typed")
        [⟨"present", none⟩, ⟨"defaulted", some "d"⟩, ⟨"asked", none⟩]
        [("present", Value.str "p")] 0).2.2
      = specPrompts (fun _ => "typed")
          [⟨"present", none⟩, ⟨"defaulted", some "d"⟩, ⟨"asked", none⟩]
          (Ctx.keyList [("present", Value.str "p")]) 0 ∧
    (resolveVars (fun _ => "typed")
        [⟨"present", none⟩, ⟨"defaulted", some "d"⟩, ⟨"asked", none⟩]
        [("present", Value.str "p")] 0).2.1
      = 0 + ((resolveVars (fun _ => "typed")
          [⟨"present", none⟩, ⟨"defaulted", some "d"⟩, ⟨"asked", none⟩]
          [("present", Value.str "p")] 0).2.2).length ∧
    ∀ e ∈ (resolveVars (fun _ => "typed")
        [⟨"present", none⟩, ⟨"defaulted", some "d"⟩, ⟨"asked", none⟩]
        [("present", Value.str "p")] 0).2.2,
      ((resolveVars (fun _ => "typed")
          [⟨"present", none⟩, ⟨"defaulted", some "d"⟩, ⟨"asked", none⟩]
          [("present", Value.str "p")] 0).1).get e.name = some (.str e.line) :=
  resolveVars_prompt_spec (fun _ => "typed")
    [⟨"present", none⟩, ⟨"defaulted", some "d"⟩, ⟨"asked", none⟩]
    [("present", Value.str "p")] 0

/-- **C9**: for every included template-side file whose resolved rule has
template=false, the bytes written to the destination file are identical to
the bytes read from the template-side file — a verbatim copy, with no
rendering and no UTF-8 decoding (the renderer and decoder are never
consulted for the body; when the rule also has no rename, the whole step
is exactly the verbatim write). -/
theorem nontemplated_copy_verbatim (tera : String → Ctx → Except Failure String)
    (decodeUtf8 : List Nat → Option String) (encodeUtf8 : String → List Nat)
    (d : TemplateDef) (baseCtx : Ctx) (st : DestFs) (rel : List String)
    (bytes : List Nat) (f : FileDef)
    (h1 : d.find_for_str (pathStr rel) = some f) (h2 : f.template = false) :
    (∀ st', processEntry tera decodeUtf8 encodeUtf8 d baseCtx st rel (.file bytes) = .ok st' →
       ∃ np, st' = st.writeFile np bytes ∧
         st'.files.find? (fun q => q.1 == np) = some (np, bytes)) ∧
    (f.rename = none →
       processEntry tera decodeUtf8 encodeUtf8 d baseCtx st rel (.file bytes)
         = .ok (st.writeFile (pathStr rel) bytes)) := by
  constructor
  · intro st' hok
    unfold processEntry at hok
    split at hok
    · exact absurd hok (by simp)
    · rename_i f' heq
      rw [h1] at heq
      injection heq with hf
      subst hf
      simp only [h2, Bool.false_eq_true, if_false] at hok
      split at hok
      · exact absurd hok (by simp)
      · rename_i np hnp
        cases hok
        refine ⟨np, rfl, ?_⟩
        simp [DestFs.writeFile, List.find?_cons]
  · intro hrn
    simp [processEntry, h1, hrn, h2]

/-- Witness for C9: a concrete raw-copy rule applied to `notes.txt` with
bytes `[7, 8]` writes exactly those bytes. -/
theorem nontemplated_copy_verbatim_witness :
    (∀ st', processEntry teraId decodeNone encodeNil defRawCopy [] ⟨[], []⟩
        ["notes.txt"] (.file [7, 8]) = .ok st' →
       ∃ np, st' = DestFs.writeFile ⟨[], []⟩ np [7, 8] ∧
         st'.files.find? (fun q => q.1 == np) = some (np, [7, 8])) ∧
    (rawCopyRule.rename = none →
       processEntry teraId decodeNone encodeNil defRawCopy [] ⟨[], []⟩
         ["notes.txt"] (.file [7, 8])
         = .ok (DestFs.writeFile ⟨[], []⟩ (pathStr ["notes.txt"]) [7, 8])) :=
  nontemplated_copy_verbatim teraId decodeNone encodeNil defRawCopy [] ⟨[], []⟩
    ["notes.txt"] [7, 8] rawCopyRule rfl rfl

/-- **C10**: the per-entry rendering context passed to the substitution
engine (used for both rename templates and file bodies in `processEntry`)
binds `file` to the entry's template-relative path, and this binding
replaces any `file` binding already in the base context — coming from the
defaults file, the basename step or declared variables — while leaving
every other key unchanged. -/
theorem per_entry_file_binding (ctx : Ctx) (rel : List String) :
    (perEntryCtx ctx rel).get "file" = some (.str (pathStr rel)) ∧
    ∀ k, k ≠ "file" → (perEntryCtx ctx rel).get k = ctx.get k :=
  ⟨Ctx.get_insert_self ctx "file" (.str (pathStr rel)),
   fun k hk => Ctx.get_insert_ne ctx "file" k (.str (pathStr rel)) hk⟩

/-- Witness for C10: even when the base context binds `file` to a
user-supplied value, the per-entry context maps `file` to the entry's
relative path, and an unrelated key is untouched. -/
theorem per_entry_file_binding_witness :
    (perEntryCtx [("file", Value.str "user-supplied")] ["src", "main.rs"]).get "file"
      = some (.str (pathStr ["src", "main.rs"])) ∧
    (perEntryCtx [("file", Value.str "user-supplied")] ["src", "main.rs"]).get "other"
      = Ctx.get [("file", Value.str "user-supplied")] "other" :=
  ⟨(per_entry_file_binding [("file", Value.str "user-supplied")] ["src", "main.rs"]).1,
   (per_entry_file_binding [("file", Value.str "user-supplied")] ["src", "main.rs"]).2
     "other" (by decide)⟩
